import Mathlib

/-!
Verification of the Personal Dictionary application
(`src/Personal_Distionary/15_g570.py`).

The program is a single-process desktop glossary: an in-memory Python dict
`word_data : word → explanation` persisted to `data/word_data.json` on every
mutation, and a per-day progress log `date → {added, viewed}` persisted to
`data/progress_log.json` by `log_progress`.

Shallow embedding conventions:
  * Python `dict` objects are insertion-ordered association lists with unique
    keys; `d[k] = v` replaces in place when the key exists, else appends
    (`pyDictSet`), `del d[k]` removes the key (`pyDictDel`), `d.get(k, "")`
    is `pyDictGet`.
  * Python strings are Lean `String`; `str.strip()`, `str.lower()`,
    `q in s` (substring test) and string `sorted` order (code-point
    lexicographic) are given executable definitions over `List Char`
    (`pyStrip`, `pyLower`, `subOcc`, `lexLe`); case mapping is modelled on
    the ASCII range, which is what `Char.toLower` provides.
  * The two on-disk files are modelled at parse level: `Option` of the
    parsed document, `none` meaning the file does not exist.
  * GUI dialogs are modelled by their results: `QInputDialog.getText`
    returns `(word, ok)`, `EditDialog.exec()` / confirmation boxes return a
    `Bool`.
-/

/-- Python `str.isspace` set used by `str.strip()`, restricted to the ASCII
whitespace characters: space, tab, newline, vertical tab, form feed,
carriage return. -/
def pyIsSpace (c : Char) : Bool :=
  c == ' ' || c == '\t' || c == '\n' || c == '\x0b' || c == '\x0c' || c == '\r'

/-- Python `str.strip()`: drop leading and trailing whitespace. -/
def pyStrip (s : String) : String :=
  ⟨((s.data.dropWhile pyIsSpace).reverse.dropWhile pyIsSpace).reverse⟩

/-- Python `str.lower()` (ASCII case mapping). -/
def pyLower (s : String) : String :=
  ⟨s.data.map Char.toLower⟩

/-- Whether the first char list is an initial segment of the second
(helper for the Python substring test). -/
def isPreOf : List Char → List Char → Bool
  | [], _ => true
  | _ :: _, [] => false
  | a :: as, b :: bs => a == b && isPreOf as bs

/-- Python `q in s` for strings: `q` occurs contiguously in `s`. -/
def subOcc (q : List Char) : List Char → Bool
  | [] => isPreOf q []
  | c :: t => isPreOf q (c :: t) || subOcc q t

/-- Code-point lexicographic order on char lists; this is exactly the order
Python `sorted` uses on strings. -/
def lexLe : List Char → List Char → Bool
  | [], _ => true
  | _ :: _, [] => false
  | a :: as, b :: bs =>
    if a.toNat < b.toNat then true
    else if b.toNat < a.toNat then false
    else lexLe as bs

/-- Python string order as a proposition. -/
def strLe (a b : String) : Prop := lexLe a.data b.data = true

instance : DecidableRel strLe := fun a b => instDecidableEqBool (lexLe a.data b.data) true

/-- The word store: a Python dict mapping word → explanation markdown. -/
abbrev WordData := List (String × String)

/-- Python `d[k] = v` on the word dict: replace in place if the key is
present, else append. -/
def pyDictSet (m : WordData) (k v : String) : WordData :=
  if m.any (fun p => p.1 == k) then
    m.map (fun p => if p.1 == k then (k, v) else p)
  else m ++ [(k, v)]

/-- Python `d.get(k, "")` on the word dict (`display_explanation`, line 383). -/
def pyDictGet (m : WordData) (k : String) : String :=
  match m.find? (fun p => p.1 == k) with
  | some p => p.2
  | none => ""

/-- Python `del d[k]` on the word dict (`delete_word`, line 426). -/
def pyDictDel (m : WordData) (k : String) : WordData :=
  m.filter (fun p => !(p.1 == k))

/-- A per-date counter pair of the progress log. -/
structure Counters where
  added : Nat
  viewed : Nat
deriving DecidableEq, Repr

/-- The progress log: a Python dict mapping ISO date → counter pair. -/
abbrev ProgressLog := List (String × Counters)

/-- The two actions `log_progress` is called with (lines 386 and 398). -/
inductive PAction where
  | added
  | viewed
deriving DecidableEq

/-- Python `log[today][action] += 1` applied to one counter pair. -/
def bump (c : Counters) : PAction → Counters
  | .added => { c with added := c.added + 1 }
  | .viewed => { c with viewed := c.viewed + 1 }

/-- `log_progress` (lines 36-48) as a function from the parsed progress file
(`none` = file missing), today's date string and the action to the document
written back: load the log (empty when the file is missing), create today's
entry as `{"added": 0, "viewed": 0}` when absent, then increment the
action's counter for today. -/
def log_progress (file : Option ProgressLog) (today : String) (action : PAction) :
    ProgressLog :=
  let log := file.getD []
  let log2 := if log.any (fun p => p.1 == today) then log else log ++ [(today, ⟨0, 0⟩)]
  log2.map (fun p => if p.1 == today then (p.1, bump p.2 action) else p)

/-- Dict lookup in the progress log with the `{0, 0}` default used by the
summary view (`ProgressDialog`, lines 192-193). -/
def getCounters (log : ProgressLog) (d : String) : Counters :=
  match log.find? (fun p => p.1 == d) with
  | some p => p.2
  | none => ⟨0, 0⟩

/-- `total_added` of `ProgressDialog` (lines 188-194): sum of the per-date
`added` counters. -/
def totalAdded (log : ProgressLog) : Nat :=
  (log.map (fun p => p.2.added)).sum

/-- `total_viewed` of `ProgressDialog` (lines 188-195): sum of the per-date
`viewed` counters. -/
def totalViewed (log : ProgressLog) : Nat :=
  (log.map (fun p => p.2.viewed)).sum

/-- The application state: the in-memory dict `self.word_data` plus the two
on-disk documents at parse level (`none` = file does not exist). -/
structure AppState where
  word_data : WordData
  data_file : Option WordData
  progress_file : Option ProgressLog

/-- `refresh_word_list` (lines 369-372): the displayed word list is
`sorted(self.word_data.keys())`. -/
def refresh_word_list (m : WordData) : List String :=
  List.insertionSort strLe (m.map Prod.fst)

/-- `filter_words` (lines 374-379): lowercase the query once, then keep the
sorted words whose lowercase form contains it. -/
def filter_words (query : String) (m : WordData) : List String :=
  (List.insertionSort strLe (m.map Prod.fst)).filter
    (fun w => subOcc (pyLower query).data (pyLower w).data)

/-- `display_explanation` (lines 381-386): renders the selected word's
markdown (display only) and calls `log_progress("viewed")`, which writes
the updated log to the progress file. -/
def display_explanation (st : AppState) (today : String) (word : String) : AppState :=
  let _md := pyDictGet st.word_data word
  { st with progress_file := some (log_progress st.progress_file today .viewed) }

/-- `add_word` (lines 388-399): `word, ok` is the input-dialog result and
`accepted` the edit-dialog result. Aborts when `not ok or not word.strip()`;
otherwise stores the word exactly as entered, saves the dict to the data
file, and logs an "added" event. -/
def add_word (st : AppState) (today : String) (ok : Bool) (word : String)
    (accepted : Bool) (explanation : String) : AppState :=
  if !ok || (pyStrip word == "") then st
  else if accepted then
    let wd := pyDictSet st.word_data word explanation
    { word_data := wd
      data_file := some wd
      progress_file := some (log_progress st.progress_file today .added) }
  else st

/-- `edit_word` (lines 401-415): `item` is the current list selection,
`accepted` the edit-dialog result. On accept it stores the updated text,
saves the dict to the data file, then calls `display_explanation(item)`
(line 415), which logs a "viewed" event. -/
def edit_word (st : AppState) (today : String) (item : Option String)
    (accepted : Bool) (updated : String) : AppState :=
  match item with
  | none => st
  | some word =>
    if accepted then
      let wd := pyDictSet st.word_data word updated
      display_explanation { st with word_data := wd, data_file := some wd } today word
    else st

/-- `delete_word` (lines 417-429): `item` is the current selection,
`confirm` the confirmation-box result. On confirmation it deletes the key
and saves the dict to the data file. -/
def delete_word (st : AppState) (item : Option String) (confirm : Bool) : AppState :=
  match item with
  | none => st
  | some word =>
    if confirm then
      let wd := pyDictDel st.word_data word
      { st with word_data := wd, data_file := some wd }
    else st

/-- C6: a word that is empty or only whitespace after trimming makes
`add_word` abort with no state change: the in-memory dict and both on-disk
files are untouched. -/
theorem add_word_whitespace_aborts (st : AppState) (today : String) (ok : Bool)
    (word : String) (accepted : Bool) (explanation : String)
    (hw : pyStrip word = "") :
    add_word st today ok word accepted explanation = st := by
  simp [add_word, hw]

/-- Witness for C6 at a concrete whitespace-only word. -/
theorem add_word_whitespace_aborts_witness :
    pyStrip "  " = "" ∧
      add_word ⟨[("a", "x")], some [("a", "x")], none⟩ "2026-10-12" true "  " true "e"
        = ⟨[("a", "x")], some [("a", "x")], none⟩ :=
  ⟨by decide, add_word_whitespace_aborts _ _ _ _ _ _ (by decide)⟩

theorem find?_map_replace (m : WordData) (k v : String)
    (h : m.any (fun p => p.1 == k) = true) :
    (m.map (fun p => if p.1 == k then (k, v) else p)).find? (fun p => p.1 == k)
      = some (k, v) := by
  induction m with
  | nil => simp at h
  | cons p t ih =>
    by_cases hp : (p.1 == k) = true
    · rw [List.map_cons, if_pos hp]
      simp only [List.find?, beq_self_eq_true k]
    · simp only [List.any_cons, hp, Bool.false_or] at h
      have hp' : (p.1 == k) = false := (Bool.not_eq_true _).mp hp
      rw [List.map_cons, if_neg hp]
      simp only [List.find?, hp', ih h]

theorem find?_eq_none_of_any_false (m : WordData) (k : String)
    (h : m.any (fun p => p.1 == k) = false) :
    m.find? (fun p => p.1 == k) = none := by
  rw [List.find?_eq_none]
  intro x hx hk
  rw [List.any_eq_false] at h
  exact h x hx hk

theorem pyDictGet_set_self (m : WordData) (k v : String) :
    pyDictGet (pyDictSet m k v) k = v := by
  unfold pyDictGet pyDictSet
  by_cases h : m.any (fun p => p.1 == k) = true
  · rw [if_pos h, find?_map_replace m k v h]
  · rw [if_neg h, List.find?_append,
      find?_eq_none_of_any_false m k (Bool.eq_false_iff.mpr h)]
    simp [List.find?]

theorem find?_map_replace_ne (m : WordData) (k v k' : String) (h : k' ≠ k) :
    (m.map (fun p => if p.1 == k then (k, v) else p)).find? (fun p => p.1 == k')
      = m.find? (fun p => p.1 == k') := by
  induction m with
  | nil => rfl
  | cons p t ih =>
    by_cases hp : (p.1 == k) = true
    · have hpk : p.1 = k := beq_iff_eq.mp hp
      have h1 : (k == k') = false := by
        simp only [beq_eq_false_iff_ne, ne_eq]
        exact fun hkk => h hkk.symm
      have h2 : (p.1 == k') = false := by rw [hpk]; exact h1
      rw [List.map_cons, if_pos hp]
      simp only [List.find?, h1, h2, ih]
    · by_cases hq : (p.1 == k') = true
      · rw [List.map_cons, if_neg hp]
        simp only [List.find?, hq]
      · have hq' : (p.1 == k') = false := (Bool.not_eq_true _).mp hq
        rw [List.map_cons, if_neg hp]
        simp only [List.find?, hq', ih]

theorem pyDictGet_set_ne (m : WordData) (k v k' : String) (h : k' ≠ k) :
    pyDictGet (pyDictSet m k v) k' = pyDictGet m k' := by
  unfold pyDictGet pyDictSet
  by_cases hany : m.any (fun p => p.1 == k) = true
  · rw [if_pos hany, find?_map_replace_ne m k v k' h]
  · rw [if_neg hany, List.find?_append]
    have h1 : (k == k') = false := by
      simp only [beq_eq_false_iff_ne]; exact fun hkk => h hkk.symm
    simp [List.find?, h1]

theorem keys_map_replace (m : WordData) (k v : String) :
    (m.map (fun p => if p.1 == k then (k, v) else p)).map Prod.fst
      = m.map Prod.fst := by
  induction m with
  | nil => rfl
  | cons p t ih =>
    by_cases hp : (p.1 == k) = true
    · have hpk : p.1 = k := beq_iff_eq.mp hp
      rw [List.map_cons, if_pos hp, List.map_cons, List.map_cons, ih]
      rw [show ((k, v) : String × String).1 = p.1 from hpk.symm]
    · rw [List.map_cons, if_neg hp, List.map_cons, List.map_cons, ih]

theorem keys_pyDictSet (m : WordData) (k v : String) :
    (pyDictSet m k v).map Prod.fst
      = if m.any (fun p => p.1 == k) = true then m.map Prod.fst
        else m.map Prod.fst ++ [k] := by
  unfold pyDictSet
  by_cases h : m.any (fun p => p.1 == k) = true
  · rw [if_pos h, if_pos h, keys_map_replace]
  · rw [if_neg h, if_neg h, List.map_append]
    rfl

theorem mem_keys_pyDictSet (m : WordData) (k v : String) :
    k ∈ (pyDictSet m k v).map Prod.fst := by
  rw [keys_pyDictSet]
  by_cases h : m.any (fun p => p.1 == k) = true
  · rw [if_pos h]
    obtain ⟨p, hp, hk⟩ := List.any_eq_true.mp h
    exact List.mem_map.mpr ⟨p, hp, beq_iff_eq.mp hk⟩
  · rw [if_neg h]
    exact List.mem_append_right _ (List.mem_singleton.mpr rfl)

theorem keys_pyDictSet_of_mem (m : WordData) (k v : String)
    (h : k ∈ m.map Prod.fst) :
    (pyDictSet m k v).map Prod.fst = m.map Prod.fst := by
  rw [keys_pyDictSet]
  obtain ⟨p, hp, hk⟩ := List.mem_map.mp h
  have ha : (m.any fun p => p.1 == k) = true := by
    rw [List.any_eq_true]
    exact ⟨p, hp, beq_iff_eq.mpr hk⟩
  rw [if_pos ha]

theorem nodup_keys_pyDictSet (m : WordData) (k v : String)
    (h : (m.map Prod.fst).Nodup) :
    ((pyDictSet m k v).map Prod.fst).Nodup := by
  rw [keys_pyDictSet]
  by_cases hany : m.any (fun p => p.1 == k) = true
  · rw [if_pos hany]; exact h
  · rw [if_neg hany]
    have hk : k ∉ m.map Prod.fst := by
      intro hmem
      obtain ⟨p, hp, hfst⟩ := List.mem_map.mp hmem
      exact hany (List.any_eq_true.mpr ⟨p, hp, beq_iff_eq.mpr hfst⟩)
    exact ((List.perm_append_singleton k _).symm).nodup (List.nodup_cons.mpr ⟨hk, h⟩)

theorem count_keys_pyDictSet (m : WordData) (k v : String)
    (h : (m.map Prod.fst).Nodup) :
    ((pyDictSet m k v).map Prod.fst).count k = 1 :=
  List.count_eq_one_of_mem (nodup_keys_pyDictSet m k v h) (mem_keys_pyDictSet m k v)

theorem count_refresh_word_list (wd : WordData) (k : String) :
    (refresh_word_list wd).count k = (wd.map Prod.fst).count k :=
  (List.perm_insertionSort strLe _).count_eq k

theorem add_word_valid_reduces (st : AppState) (today word explanation : String)
    (hw : pyStrip word ≠ "") :
    add_word st today true word true explanation
      = { word_data := pyDictSet st.word_data word explanation
          data_file := some (pyDictSet st.word_data word explanation)
          progress_file := some (log_progress st.progress_file today .added) } := by
  have h1 : (pyStrip word == "") = false := beq_eq_false_iff_ne.mpr hw
  simp [add_word, h1]

/-- C1: for every word that is non-empty after stripping whitespace,
a successful `add_word` makes the stored explanation retrievable for that
word and puts the word in the displayed sorted list exactly once. -/
theorem add_word_get_and_unique (st : AppState) (today word explanation : String)
    (hw : pyStrip word ≠ "") (hnd : (st.word_data.map Prod.fst).Nodup) :
    pyDictGet (add_word st today true word true explanation).word_data word = explanation
    ∧ (refresh_word_list (add_word st today true word true explanation).word_data).count word
        = 1 := by
  rw [add_word_valid_reduces st today word explanation hw]
  exact ⟨pyDictGet_set_self _ _ _,
    by rw [count_refresh_word_list]; exact count_keys_pyDictSet _ _ _ hnd⟩

/-- Witness for C1 at a concrete store and word. -/
theorem add_word_get_and_unique_witness :
    pyStrip "cat" ≠ "" ∧
      ((([("dog", "woof")] : WordData).map Prod.fst).Nodup ∧
        (pyDictGet (add_word ⟨[("dog", "woof")], some [("dog", "woof")], none⟩
            "2026-10-12" true "cat" true "feline").word_data "cat" = "feline"
          ∧ (refresh_word_list (add_word ⟨[("dog", "woof")], some [("dog", "woof")], none⟩
              "2026-10-12" true "cat" true "feline").word_data).count "cat" = 1)) :=
  ⟨by decide, by decide,
    add_word_get_and_unique ⟨[("dog", "woof")], some [("dog", "woof")], none⟩
      "2026-10-12" "cat" "feline" (by decide) (by decide)⟩

/-- C2: each of the three mutating operations writes the full in-memory
dict to the word-data file before returning, so whenever the invariant
"on-disk word-data document = in-memory dict" held before an operation it
holds immediately after it (the mutating branches establish it outright;
the aborting branches leave the state untouched). -/
theorem mutations_persist_word_data (st : AppState) (today : String) (ok : Bool)
    (word : String) (accepted : Bool) (explanation : String)
    (item : Option String) (accepted2 : Bool) (updated : String)
    (item2 : Option String) (confirm : Bool)
    (h : st.data_file = some st.word_data) :
    ((add_word st today ok word accepted explanation).data_file
        = some (add_word st today ok word accepted explanation).word_data)
    ∧ ((edit_word st today item accepted2 updated).data_file
        = some (edit_word st today item accepted2 updated).word_data)
    ∧ ((delete_word st item2 confirm).data_file
        = some (delete_word st item2 confirm).word_data) := by
  refine ⟨?_, ?_, ?_⟩
  · unfold add_word
    split
    · exact h
    · split
      · rfl
      · exact h
  · unfold edit_word
    split
    · exact h
    · split
      · rfl
      · exact h
  · unfold delete_word
    split
    · exact h
    · split
      · rfl
      · exact h

/-- Witness for C2 at a concrete state satisfying the invariant. -/
theorem mutations_persist_word_data_witness :
    (⟨[("a", "x")], some [("a", "x")], none⟩ : AppState).data_file
        = some (⟨[("a", "x")], some [("a", "x")], none⟩ : AppState).word_data
    ∧ (((add_word ⟨[("a", "x")], some [("a", "x")], none⟩ "2026-10-12" true "b" true "y").data_file
          = some (add_word ⟨[("a", "x")], some [("a", "x")], none⟩ "2026-10-12" true "b" true "y").word_data)
        ∧ ((edit_word ⟨[("a", "x")], some [("a", "x")], none⟩ "2026-10-12" (some "a") true "z").data_file
            = some (edit_word ⟨[("a", "x")], some [("a", "x")], none⟩ "2026-10-12" (some "a") true "z").word_data)
        ∧ ((delete_word ⟨[("a", "x")], some [("a", "x")], none⟩ (some "a") true).data_file
            = some (delete_word ⟨[("a", "x")], some [("a", "x")], none⟩ (some "a") true).word_data)) :=
  ⟨rfl, mutations_persist_word_data ⟨[("a", "x")], some [("a", "x")], none⟩
    "2026-10-12" true "b" true "y" (some "a") true "z" (some "a") true rfl⟩

/-- C7: re-adding an existing word silently overwrites: after
`add(w, e1)` then `add(w, e2)` the stored explanation is `e2`, the word
still appears exactly once in the sorted list, and the key set is
unchanged by the second add. -/
theorem add_word_overwrites_silently (st : AppState)
    (today1 today2 word e1 e2 : String)
    (hw : pyStrip word ≠ "") (hnd : (st.word_data.map Prod.fst).Nodup) :
    pyDictGet (add_word (add_word st today1 true word true e1)
        today2 true word true e2).word_data word = e2
    ∧ (refresh_word_list (add_word (add_word st today1 true word true e1)
        today2 true word true e2).word_data).count word = 1
    ∧ (add_word (add_word st today1 true word true e1)
          today2 true word true e2).word_data.map Prod.fst
        = (add_word st today1 true word true e1).word_data.map Prod.fst := by
  rw [add_word_valid_reduces st today1 word e1 hw]
  rw [add_word_valid_reduces _ today2 word e2 hw]
  have hnd1 : ((pyDictSet st.word_data word e1).map Prod.fst).Nodup :=
    nodup_keys_pyDictSet _ _ _ hnd
  refine ⟨pyDictGet_set_self _ _ _, ?_, ?_⟩
  · rw [count_refresh_word_list]
    exact count_keys_pyDictSet _ _ _ hnd1
  · exact keys_pyDictSet_of_mem _ _ _ (mem_keys_pyDictSet st.word_data word e1)

/-- Witness for C7 at a concrete store. -/
theorem add_word_overwrites_silently_witness :
    pyStrip "cat" ≠ "" ∧
      ((([] : WordData).map Prod.fst).Nodup ∧
        (pyDictGet (add_word (add_word ⟨[], none, none⟩ "2026-10-11" true "cat" true "e1")
            "2026-10-12" true "cat" true "e2").word_data "cat" = "e2"
          ∧ (refresh_word_list (add_word (add_word ⟨[], none, none⟩ "2026-10-11" true "cat" true "e1")
              "2026-10-12" true "cat" true "e2").word_data).count "cat" = 1
          ∧ (add_word (add_word ⟨[], none, none⟩ "2026-10-11" true "cat" true "e1")
                "2026-10-12" true "cat" true "e2").word_data.map Prod.fst
              = (add_word ⟨[], none, none⟩ "2026-10-11" true "cat" true "e1").word_data.map Prod.fst)) :=
  ⟨by decide, by decide,
    add_word_overwrites_silently ⟨[], none, none⟩ "2026-10-11" "2026-10-12"
      "cat" "e1" "e2" (by decide) (by decide)⟩

/-- C10: `add_word` stores the word exactly as entered, without trimming:
a word with surrounding whitespace becomes a key itself, and a second,
different word (in particular its trimmed form) becomes a separate entry,
so both coexist with their own explanations; trimming is used only in the
emptiness check. -/
theorem add_word_stores_untrimmed (st : AppState) (today1 today2 w w2 e e2 : String)
    (hw : pyStrip w ≠ "") (hw2 : pyStrip w2 ≠ "") (hne : w2 ≠ w) :
    w ∈ (add_word st today1 true w true e).word_data.map Prod.fst
    ∧ pyDictGet (add_word (add_word st today1 true w true e)
        today2 true w2 true e2).word_data w = e
    ∧ pyDictGet (add_word (add_word st today1 true w true e)
        today2 true w2 true e2).word_data w2 = e2 := by
  rw [add_word_valid_reduces st today1 w e hw]
  rw [add_word_valid_reduces _ today2 w2 e2 hw2]
  refine ⟨mem_keys_pyDictSet _ _ _, ?_, pyDictGet_set_self _ _ _⟩
  rw [pyDictGet_set_ne _ _ _ _ (fun hww => hne hww.symm)]
  exact pyDictGet_set_self _ _ _

/-- Witness for C10: the untrimmed word " foo " and its trimmed form "foo"
coexist as distinct entries. -/
theorem add_word_stores_untrimmed_witness :
    pyStrip " foo " ≠ "" ∧ pyStrip "foo" ≠ "" ∧ "foo" ≠ " foo " ∧
      (" foo " ∈ (add_word ⟨[], none, none⟩ "2026-10-12" true " foo " true "e").word_data.map Prod.fst
        ∧ pyDictGet (add_word (add_word ⟨[], none, none⟩ "2026-10-12" true " foo " true "e")
            "2026-10-12" true "foo" true "e2").word_data " foo " = "e"
        ∧ pyDictGet (add_word (add_word ⟨[], none, none⟩ "2026-10-12" true " foo " true "e")
            "2026-10-12" true "foo" true "e2").word_data "foo" = "e2") :=
  ⟨by decide, by decide, by decide,
    add_word_stores_untrimmed ⟨[], none, none⟩ "2026-10-12" "2026-10-12"
      " foo " "foo" "e" "e2" (by decide) (by decide) (by decide)⟩

theorem find?_key_eq_none {α : Type} (m : List (String × α)) (k : String)
    (h : m.any (fun p => p.1 == k) = false) :
    m.find? (fun p => p.1 == k) = none := by
  rw [List.find?_eq_none]
  intro x hx hk
  rw [List.any_eq_false] at h
  exact h x hx hk

theorem getCounters_default (L : ProgressLog) (t : String)
    (h : L.any (fun p => p.1 == t) = false) :
    getCounters L t = ⟨0, 0⟩ := by
  unfold getCounters
  rw [find?_key_eq_none L t h]

theorem getCounters_map_bump_ne (L : ProgressLog) (t d : String) (a : PAction)
    (h : d ≠ t) :
    getCounters (L.map (fun p => if p.1 == t then (p.1, bump p.2 a) else p)) d
      = getCounters L d := by
  induction L with
  | nil => rfl
  | cons p l ih =>
    unfold getCounters at ih ⊢
    by_cases hd : (p.1 == d) = true
    · by_cases hp : (p.1 == t) = true
      · exact absurd ((beq_iff_eq.mp hd).symm.trans (beq_iff_eq.mp hp)) h
      · rw [List.map_cons, if_neg hp]
        simp only [List.find?, hd]
    · have hd' : (p.1 == d) = false := (Bool.not_eq_true _).mp hd
      by_cases hp : (p.1 == t) = true
      · rw [List.map_cons, if_pos hp]
        simp only [List.find?, hd', ih]
      · rw [List.map_cons, if_neg hp]
        simp only [List.find?, hd', ih]

theorem getCounters_map_bump_self (L : ProgressLog) (t : String) (a : PAction)
    (hmem : L.any (fun p => p.1 == t) = true) :
    getCounters (L.map (fun p => if p.1 == t then (p.1, bump p.2 a) else p)) t
      = bump (getCounters L t) a := by
  induction L with
  | nil => simp at hmem
  | cons p l ih =>
    unfold getCounters at ih ⊢
    by_cases hp : (p.1 == t) = true
    · rw [List.map_cons, if_pos hp]
      simp only [List.find?, hp]
    · have hp' : (p.1 == t) = false := (Bool.not_eq_true _).mp hp
      simp only [List.any_cons, hp', Bool.false_or] at hmem
      rw [List.map_cons, if_neg hp]
      simp only [List.find?, hp', ih hmem]

theorem getCounters_map_bump_added_viewed (L : ProgressLog) (t d : String) :
    (getCounters (L.map (fun p => if p.1 == t then (p.1, bump p.2 .added) else p)) d).viewed
      = (getCounters L d).viewed := by
  induction L with
  | nil => rfl
  | cons p l ih =>
    unfold getCounters at ih ⊢
    by_cases hd : (p.1 == d) = true
    · by_cases hp : (p.1 == t) = true
      · rw [List.map_cons, if_pos hp]
        simp only [List.find?, hd]
        rfl
      · rw [List.map_cons, if_neg hp]
        simp only [List.find?, hd]
    · have hd' : (p.1 == d) = false := (Bool.not_eq_true _).mp hd
      by_cases hp : (p.1 == t) = true
      · rw [List.map_cons, if_pos hp]
        simp only [List.find?, hd', ih]
      · rw [List.map_cons, if_neg hp]
        simp only [List.find?, hd', ih]

theorem getCounters_map_bump_viewed_added (L : ProgressLog) (t d : String) :
    (getCounters (L.map (fun p => if p.1 == t then (p.1, bump p.2 .viewed) else p)) d).added
      = (getCounters L d).added := by
  induction L with
  | nil => rfl
  | cons p l ih =>
    unfold getCounters at ih ⊢
    by_cases hd : (p.1 == d) = true
    · by_cases hp : (p.1 == t) = true
      · rw [List.map_cons, if_pos hp]
        simp only [List.find?, hd]
        rfl
      · rw [List.map_cons, if_neg hp]
        simp only [List.find?, hd]
    · have hd' : (p.1 == d) = false := (Bool.not_eq_true _).mp hd
      by_cases hp : (p.1 == t) = true
      · rw [List.map_cons, if_pos hp]
        simp only [List.find?, hd', ih]
      · rw [List.map_cons, if_neg hp]
        simp only [List.find?, hd', ih]

theorem getCounters_append (L : ProgressLog) (t : String) (c : Counters)
    (d : String) :
    getCounters (L ++ [(t, c)]) d
      = match L.find? (fun p => p.1 == d) with
        | some p => p.2
        | none => if (t == d) = true then c else ⟨0, 0⟩ := by
  unfold getCounters
  rw [List.find?_append]
  cases hf : L.find? (fun p => p.1 == d) with
  | some q => rfl
  | none =>
    by_cases ht : (t == d) = true
    · simp [List.find?, Option.or, ht]
    · simp [List.find?, Option.or, (Bool.not_eq_true _).mp ht]

theorem getCounters_append_self (L : ProgressLog) (t : String) (c : Counters)
    (hmem : L.any (fun p => p.1 == t) = false) :
    getCounters (L ++ [(t, c)]) t = c := by
  rw [getCounters_append, find?_key_eq_none L t hmem]
  simp [beq_self_eq_true]

theorem getCounters_append_ne (L : ProgressLog) (t : String) (c : Counters)
    (d : String) (h : d ≠ t) :
    getCounters (L ++ [(t, c)]) d = getCounters L d := by
  rw [getCounters_append]
  unfold getCounters
  cases hf : L.find? (fun p => p.1 == d) with
  | some q => rfl
  | none =>
    have ht : (t == d) = false := by
      rw [beq_eq_false_iff_ne]
      exact fun htd => h htd.symm
    simp [ht]

theorem sum_added_map_bump (L : ProgressLog) (t : String) (a : PAction)
    (inc : Nat) (hb : ∀ c : Counters, (bump c a).added = c.added + inc) :
    totalAdded (L.map (fun p => if p.1 == t then (p.1, bump p.2 a) else p))
      = totalAdded L + inc * L.countP (fun p => p.1 == t) := by
  induction L with
  | nil => simp [totalAdded]
  | cons p l ih =>
    unfold totalAdded at ih ⊢
    by_cases hp : (p.1 == t) = true
    · rw [List.map_cons, if_pos hp]
      simp only [List.map_cons, List.sum_cons, List.countP_cons, hp, if_true, ih, hb]
      ring
    · have hp' : (p.1 == t) = false := (Bool.not_eq_true _).mp hp
      rw [List.map_cons, if_neg hp]
      simp only [List.map_cons, List.sum_cons, List.countP_cons, hp',
        Bool.false_eq_true, if_false, ih]
      ring

theorem sum_viewed_map_bump (L : ProgressLog) (t : String) (a : PAction)
    (inc : Nat) (hb : ∀ c : Counters, (bump c a).viewed = c.viewed + inc) :
    totalViewed (L.map (fun p => if p.1 == t then (p.1, bump p.2 a) else p))
      = totalViewed L + inc * L.countP (fun p => p.1 == t) := by
  induction L with
  | nil => simp [totalViewed]
  | cons p l ih =>
    unfold totalViewed at ih ⊢
    by_cases hp : (p.1 == t) = true
    · rw [List.map_cons, if_pos hp]
      simp only [List.map_cons, List.sum_cons, List.countP_cons, hp, if_true, ih, hb]
      ring
    · have hp' : (p.1 == t) = false := (Bool.not_eq_true _).mp hp
      rw [List.map_cons, if_neg hp]
      simp only [List.map_cons, List.sum_cons, List.countP_cons, hp',
        Bool.false_eq_true, if_false, ih]
      ring

theorem countP_key_eq_one (L : ProgressLog) (t : String)
    (hnd : (L.map Prod.fst).Nodup) (hmem : L.any (fun p => p.1 == t) = true) :
    L.countP (fun p => p.1 == t) = 1 := by
  induction L with
  | nil => simp at hmem
  | cons p l ih =>
    rw [List.map_cons, List.nodup_cons] at hnd
    by_cases hp : (p.1 == t) = true
    · have hpt : p.1 = t := beq_iff_eq.mp hp
      have h0 : l.countP (fun p => p.1 == t) = 0 := by
        rw [List.countP_eq_zero]
        intro q hq hqt
        exact hnd.1 (List.mem_map.mpr ⟨q, hq, (beq_iff_eq.mp hqt).trans hpt.symm⟩)
      rw [List.countP_cons]
      simp [hp, h0]
    · have hp' : (p.1 == t) = false := (Bool.not_eq_true _).mp hp
      simp only [List.any_cons, hp', Bool.false_or] at hmem
      rw [List.countP_cons]
      simp [hp', ih hnd.2 hmem]

theorem countP_key_eq_zero (L : ProgressLog) (t : String)
    (hmem : L.any (fun p => p.1 == t) = false) :
    L.countP (fun p => p.1 == t) = 0 := by
  rw [List.countP_eq_zero]
  rw [List.any_eq_false] at hmem
  exact hmem

theorem totalAdded_append (L : ProgressLog) (t : String) (c : Counters) :
    totalAdded (L ++ [(t, c)]) = totalAdded L + c.added := by
  unfold totalAdded
  rw [List.map_append, List.sum_append]
  rfl

theorem totalViewed_append (L : ProgressLog) (t : String) (c : Counters) :
    totalViewed (L ++ [(t, c)]) = totalViewed L + c.viewed := by
  unfold totalViewed
  rw [List.map_append, List.sum_append]
  rfl

theorem log_progress_cases (file : Option ProgressLog) (t : String) (a : PAction) :
    log_progress file t a
      = if ((file.getD []).any (fun p => p.1 == t)) = true then
          (file.getD []).map (fun p => if p.1 == t then (p.1, bump p.2 a) else p)
        else ((file.getD []) ++ [(t, (⟨0, 0⟩ : Counters))]).map
          (fun p => if p.1 == t then (p.1, bump p.2 a) else p) := by
  by_cases hmem : ((file.getD []).any (fun p => p.1 == t)) = true
  · simp [log_progress, hmem]
  · simp [log_progress, hmem]

theorem getCounters_log_progress_self (file : Option ProgressLog) (t : String)
    (a : PAction) :
    getCounters (log_progress file t a) t = bump (getCounters (file.getD []) t) a := by
  rw [log_progress_cases]
  by_cases hmem : ((file.getD []).any (fun p => p.1 == t)) = true
  · rw [if_pos hmem, getCounters_map_bump_self _ _ _ hmem]
  · have hm' : ((file.getD []).any (fun p => p.1 == t)) = false :=
      (Bool.not_eq_true _).mp hmem
    have hany2 : (((file.getD []) ++ [(t, (⟨0, 0⟩ : Counters))]).any (fun p => p.1 == t)) = true := by
      rw [List.any_append]
      simp [beq_self_eq_true]
    rw [if_neg hmem, getCounters_map_bump_self _ _ _ hany2,
      getCounters_append_self _ _ _ hm', getCounters_default _ _ hm']

theorem getCounters_log_progress_ne (file : Option ProgressLog) (t d : String)
    (a : PAction) (h : d ≠ t) :
    getCounters (log_progress file t a) d = getCounters (file.getD []) d := by
  rw [log_progress_cases]
  by_cases hmem : ((file.getD []).any (fun p => p.1 == t)) = true
  · rw [if_pos hmem, getCounters_map_bump_ne _ _ _ _ h]
  · rw [if_neg hmem, getCounters_map_bump_ne _ _ _ _ h, getCounters_append_ne _ _ _ _ h]

theorem getCounters_log_progress_added_viewed (file : Option ProgressLog)
    (t d : String) :
    (getCounters (log_progress file t .added) d).viewed
      = (getCounters (file.getD []) d).viewed := by
  rw [log_progress_cases]
  by_cases hmem : ((file.getD []).any (fun p => p.1 == t)) = true
  · rw [if_pos hmem, getCounters_map_bump_added_viewed]
  · rw [if_neg hmem, getCounters_map_bump_added_viewed]
    by_cases hd : d = t
    · have hm' : ((file.getD []).any (fun p => p.1 == t)) = false :=
        (Bool.not_eq_true _).mp hmem
      rw [hd, getCounters_append_self _ _ _ hm', getCounters_default _ _ hm']
    · rw [getCounters_append_ne _ _ _ _ hd]

theorem getCounters_log_progress_viewed_added (file : Option ProgressLog)
    (t d : String) :
    (getCounters (log_progress file t .viewed) d).added
      = (getCounters (file.getD []) d).added := by
  rw [log_progress_cases]
  by_cases hmem : ((file.getD []).any (fun p => p.1 == t)) = true
  · rw [if_pos hmem, getCounters_map_bump_viewed_added]
  · rw [if_neg hmem, getCounters_map_bump_viewed_added]
    by_cases hd : d = t
    · have hm' : ((file.getD []).any (fun p => p.1 == t)) = false :=
        (Bool.not_eq_true _).mp hmem
      rw [hd, getCounters_append_self _ _ _ hm', getCounters_default _ _ hm']
    · rw [getCounters_append_ne _ _ _ _ hd]

theorem totalAdded_log_progress_added (file : Option ProgressLog) (t : String)
    (hnd : ((file.getD []).map Prod.fst).Nodup) :
    totalAdded (log_progress file t .added) = totalAdded (file.getD []) + 1 := by
  rw [log_progress_cases]
  have hb : ∀ c : Counters, (bump c .added).added = c.added + 1 := fun c => rfl
  by_cases hmem : ((file.getD []).any (fun p => p.1 == t)) = true
  · rw [if_pos hmem, sum_added_map_bump _ _ _ 1 hb,
      countP_key_eq_one _ _ hnd hmem]
  · have hm' : ((file.getD []).any (fun p => p.1 == t)) = false :=
      (Bool.not_eq_true _).mp hmem
    rw [if_neg hmem, sum_added_map_bump _ _ _ 1 hb, totalAdded_append,
      List.countP_append, countP_key_eq_zero _ _ hm']
    simp [List.countP, List.countP.go, beq_self_eq_true]

theorem totalViewed_log_progress_viewed (file : Option ProgressLog) (t : String)
    (hnd : ((file.getD []).map Prod.fst).Nodup) :
    totalViewed (log_progress file t .viewed) = totalViewed (file.getD []) + 1 := by
  rw [log_progress_cases]
  have hb : ∀ c : Counters, (bump c .viewed).viewed = c.viewed + 1 := fun c => rfl
  by_cases hmem : ((file.getD []).any (fun p => p.1 == t)) = true
  · rw [if_pos hmem, sum_viewed_map_bump _ _ _ 1 hb,
      countP_key_eq_one _ _ hnd hmem]
  · have hm' : ((file.getD []).any (fun p => p.1 == t)) = false :=
      (Bool.not_eq_true _).mp hmem
    rw [if_neg hmem, sum_viewed_map_bump _ _ _ 1 hb, totalViewed_append,
      List.countP_append, countP_key_eq_zero _ _ hm']
    simp [List.countP, List.countP.go, beq_self_eq_true]

theorem totalAdded_log_progress_viewed (file : Option ProgressLog) (t : String) :
    totalAdded (log_progress file t .viewed) = totalAdded (file.getD []) := by
  rw [log_progress_cases]
  have hb : ∀ c : Counters, (bump c .viewed).added = c.added + 0 := fun c => rfl
  by_cases hmem : ((file.getD []).any (fun p => p.1 == t)) = true
  · rw [if_pos hmem, sum_added_map_bump _ _ _ 0 hb]
    ring
  · rw [if_neg hmem, sum_added_map_bump _ _ _ 0 hb, totalAdded_append]
    ring

theorem totalViewed_log_progress_added (file : Option ProgressLog) (t : String) :
    totalViewed (log_progress file t .added) = totalViewed (file.getD []) := by
  rw [log_progress_cases]
  have hb : ∀ c : Counters, (bump c .added).viewed = c.viewed + 0 := fun c => rfl
  by_cases hmem : ((file.getD []).any (fun p => p.1 == t)) = true
  · rw [if_pos hmem, sum_viewed_map_bump _ _ _ 0 hb]
    ring
  · rw [if_neg hmem, sum_viewed_map_bump _ _ _ 0 hb, totalViewed_append]
    ring

/-- C3: `log_progress("added")` increments today's `added` counter by
exactly one (a previously absent date entry starts from `{"added": 0,
"viewed": 0}`), increments the total added count by exactly one, and leaves
every `viewed` counter and every other date's entry unchanged;
symmetrically for `log_progress("viewed")`; and the state operations
persist exactly the incremented document to the progress file. -/
theorem log_progress_increments (file : Option ProgressLog) (today : String)
    (hnd : ((file.getD []).map Prod.fst).Nodup) :
    ((getCounters (log_progress file today .added) today).added
        = (getCounters (file.getD []) today).added + 1)
    ∧ (∀ d, (getCounters (log_progress file today .added) d).viewed
        = (getCounters (file.getD []) d).viewed)
    ∧ (∀ d, d ≠ today → getCounters (log_progress file today .added) d
        = getCounters (file.getD []) d)
    ∧ totalAdded (log_progress file today .added) = totalAdded (file.getD []) + 1
    ∧ totalViewed (log_progress file today .added) = totalViewed (file.getD [])
    ∧ ((getCounters (log_progress file today .viewed) today).viewed
        = (getCounters (file.getD []) today).viewed + 1)
    ∧ (∀ d, (getCounters (log_progress file today .viewed) d).added
        = (getCounters (file.getD []) d).added)
    ∧ (∀ d, d ≠ today → getCounters (log_progress file today .viewed) d
        = getCounters (file.getD []) d)
    ∧ totalViewed (log_progress file today .viewed) = totalViewed (file.getD []) + 1
    ∧ totalAdded (log_progress file today .viewed) = totalAdded (file.getD [])
    ∧ (∀ st : AppState, st.progress_file = file →
        ∀ ok word accepted explanation, ok = true → pyStrip word ≠ "" → accepted = true →
          (add_word st today ok word accepted explanation).progress_file
            = some (log_progress file today .added))
    ∧ (∀ st : AppState, st.progress_file = file → ∀ word,
        (display_explanation st today word).progress_file
          = some (log_progress file today .viewed)) := by
  refine ⟨?_, ?_, ?_, ?_, ?_, ?_, ?_, ?_, ?_, ?_, ?_, ?_⟩
  · rw [getCounters_log_progress_self]
    rfl
  · intro d
    by_cases hd : d = today
    · rw [hd, getCounters_log_progress_self]
      rfl
    · rw [getCounters_log_progress_ne _ _ _ _ hd]
  · intro d hd
    exact getCounters_log_progress_ne _ _ _ _ hd
  · exact totalAdded_log_progress_added _ _ hnd
  · exact totalViewed_log_progress_added _ _
  · rw [getCounters_log_progress_self]
    rfl
  · intro d
    by_cases hd : d = today
    · rw [hd, getCounters_log_progress_self]
      rfl
    · rw [getCounters_log_progress_ne _ _ _ _ hd]
  · intro d hd
    exact getCounters_log_progress_ne _ _ _ _ hd
  · exact totalViewed_log_progress_viewed _ _ hnd
  · exact totalAdded_log_progress_viewed _ _
  · intro st hst ok word accepted explanation hok hword hacc
    have h1 : (pyStrip word == "") = false := beq_eq_false_iff_ne.mpr hword
    simp [add_word, hok, hacc, h1, hst]
  · intro st hst word
    simp [display_explanation, hst]

/-- Witness for C3 at a concrete log and date. -/
theorem log_progress_increments_witness :
    (((some [("2026-10-11", (⟨2, 3⟩ : Counters))] : Option ProgressLog).getD []).map
        Prod.fst).Nodup
    ∧ ((getCounters (log_progress (some [("2026-10-11", ⟨2, 3⟩)]) "2026-10-12" .added)
          "2026-10-12").added
        = (getCounters ((some [("2026-10-11", (⟨2, 3⟩ : Counters))] : Option ProgressLog).getD [])
            "2026-10-12").added + 1) := by
  refine ⟨by decide, ?_⟩
  exact (log_progress_increments (some [("2026-10-11", ⟨2, 3⟩)]) "2026-10-12" (by decide)).1

/-- C4 counterexample: editing an existing word does change the progress
log — `edit_word` ends by re-displaying the word, which records a "viewed"
event. Starting from an empty progress log, one accepted edit of the
existing word "a" leaves the progress file holding a viewed count of 1 for
today, not the unchanged log the claim requires. -/
theorem edit_word_changes_progress_log :
    (edit_word ⟨[("a", "x")], some [("a", "x")], some []⟩ "2026-10-12"
        (some "a") true "y").progress_file
      ≠ (⟨[("a", "x")], some [("a", "x")], some []⟩ : AppState).progress_file
    ∧ (edit_word ⟨[("a", "x")], some [("a", "x")], some []⟩ "2026-10-12"
        (some "a") true "y").progress_file
      = some [("2026-10-12", ⟨0, 1⟩)] := by
  constructor
  · decide
  · rfl

/-- C4 amended: for every existing word, an accepted edit persists the
updated dict to the word-data file immediately and records no "added"
event (no `added` counter changes anywhere and the total added count is
unchanged) — but, because `edit_word` re-displays the word, it records
exactly one "viewed" event for today. -/
theorem edit_word_persists_and_records_viewed (st : AppState)
    (today word updated : String)
    (hmem : word ∈ st.word_data.map Prod.fst) :
    ((edit_word st today (some word) true updated).data_file
        = some (edit_word st today (some word) true updated).word_data)
    ∧ (edit_word st today (some word) true updated).word_data
        = pyDictSet st.word_data word updated
    ∧ (edit_word st today (some word) true updated).progress_file
        = some (log_progress st.progress_file today .viewed)
    ∧ totalAdded ((edit_word st today (some word) true updated).progress_file.getD [])
        = totalAdded (st.progress_file.getD [])
    ∧ (∀ d, (getCounters ((edit_word st today (some word) true updated).progress_file.getD []) d).added
        = (getCounters (st.progress_file.getD []) d).added)
    ∧ (getCounters ((edit_word st today (some word) true updated).progress_file.getD []) today).viewed
        = (getCounters (st.progress_file.getD []) today).viewed + 1 := by
  have hred : edit_word st today (some word) true updated
      = { word_data := pyDictSet st.word_data word updated
          data_file := some (pyDictSet st.word_data word updated)
          progress_file := some (log_progress st.progress_file today .viewed) } := by
    simp [edit_word, display_explanation]
  rw [hred]
  refine ⟨rfl, rfl, rfl, ?_, ?_, ?_⟩
  · exact totalAdded_log_progress_viewed _ _
  · intro d
    exact getCounters_log_progress_viewed_added _ _ _
  · show (getCounters (log_progress st.progress_file today .viewed) today).viewed = _
    rw [getCounters_log_progress_self]
    rfl

/-- Witness for the amended C4 at a concrete state. -/
theorem edit_word_persists_and_records_viewed_witness :
    "a" ∈ (([("a", "x")] : WordData).map Prod.fst)
    ∧ (getCounters ((edit_word ⟨[("a", "x")], some [("a", "x")], some [("2026-10-12", ⟨4, 7⟩)]⟩
          "2026-10-12" (some "a") true "y").progress_file.getD []) "2026-10-12").viewed
        = (getCounters ((some [("2026-10-12", (⟨4, 7⟩ : Counters))] : Option ProgressLog).getD [])
            "2026-10-12").viewed + 1 := by
  refine ⟨by decide, ?_⟩
  exact (edit_word_persists_and_records_viewed
    ⟨[("a", "x")], some [("a", "x")], some [("2026-10-12", ⟨4, 7⟩)]⟩
    "2026-10-12" "a" "y" (by decide)).2.2.2.2.2

theorem lexLe_total : ∀ a b : List Char, lexLe a b = true ∨ lexLe b a = true := by
  intro a
  induction a with
  | nil => intro b; left; rfl
  | cons x xs ih =>
    intro b
    cases b with
    | nil => right; rfl
    | cons y ys =>
      by_cases hxy : x.toNat < y.toNat
      · left
        simp [lexLe, hxy]
      · by_cases hyx : y.toNat < x.toNat
        · right
          simp [lexLe, hyx]
        · rcases ih ys with h | h
          · left
            simp [lexLe, hxy, hyx, h]
          · right
            simp [lexLe, hxy, hyx, h]

theorem lexLe_trans : ∀ a b c : List Char,
    lexLe a b = true → lexLe b c = true → lexLe a c = true := by
  intro a
  induction a with
  | nil => intro b c h1 h2; rfl
  | cons x xs ih =>
    intro b c h1 h2
    cases b with
    | nil => simp [lexLe] at h1
    | cons y ys =>
      cases c with
      | nil => simp [lexLe] at h2
      | cons z zs =>
        simp only [lexLe] at h1 h2 ⊢
        by_cases hxy : x.toNat < y.toNat
        · by_cases hyz : y.toNat < z.toNat
          · rw [if_pos (show x.toNat < z.toNat by omega)]
          · by_cases hzy : z.toNat < y.toNat
            · rw [if_neg hyz, if_pos hzy] at h2
              simp at h2
            · rw [if_pos (show x.toNat < z.toNat by omega)]
        · by_cases hyx : y.toNat < x.toNat
          · rw [if_neg hxy, if_pos hyx] at h1
            simp at h1
          · rw [if_neg hxy, if_neg hyx] at h1
            by_cases hyz : y.toNat < z.toNat
            · rw [if_pos (show x.toNat < z.toNat by omega)]
            · by_cases hzy : z.toNat < y.toNat
              · rw [if_neg hyz, if_pos hzy] at h2
                simp at h2
              · rw [if_neg hyz, if_neg hzy] at h2
                rw [if_neg (show ¬x.toNat < z.toNat by omega),
                  if_neg (show ¬z.toNat < x.toNat by omega)]
                exact ih ys zs h1 h2

instance : IsTotal String strLe :=
  ⟨fun a b => lexLe_total a.data b.data⟩

instance : IsTrans String strLe :=
  ⟨fun a b c => lexLe_trans a.data b.data c.data⟩

theorem isPreOf_iff (q : List Char) : ∀ s : List Char,
    isPreOf q s = true ↔ ∃ t, s = q ++ t := by
  induction q with
  | nil =>
    intro s
    simp [isPreOf]
  | cons a as ih =>
    intro s
    cases s with
    | nil => simp [isPreOf]
    | cons b bs =>
      simp only [isPreOf, Bool.and_eq_true, beq_iff_eq, ih, List.cons_append,
        List.cons.injEq]
      constructor
      · rintro ⟨hab, t, ht⟩
        exact ⟨t, hab.symm, ht⟩
      · rintro ⟨t, hba, ht⟩
        exact ⟨hba.symm, t, ht⟩

theorem subOcc_iff (q : List Char) : ∀ s : List Char,
    subOcc q s = true ↔ ∃ u v, s = u ++ q ++ v := by
  intro s
  induction s with
  | nil =>
    rw [show subOcc q [] = isPreOf q [] from rfl, isPreOf_iff]
    constructor
    · rintro ⟨t, ht⟩
      rw [eq_comm, List.append_eq_nil] at ht
      exact ⟨[], [], by simp [ht.1]⟩
    · rintro ⟨u, v, huv⟩
      rw [eq_comm, List.append_eq_nil, List.append_eq_nil] at huv
      exact ⟨[], by simp [huv.1.2]⟩
  | cons c t ih =>
    rw [show subOcc q (c :: t) = (isPreOf q (c :: t) || subOcc q t) from rfl]
    rw [Bool.or_eq_true, isPreOf_iff, ih]
    constructor
    · rintro (⟨v, hv⟩ | ⟨u, v, huv⟩)
      · exact ⟨[], v, by simpa using hv⟩
      · exact ⟨c :: u, v, by simp [huv]⟩
    · rintro ⟨u, v, huv⟩
      cases u with
      | nil =>
        left
        exact ⟨v, by simpa using huv⟩
      | cons c2 u2 =>
        right
        rw [List.cons_append, List.cons_append, List.cons.injEq] at huv
        exact ⟨u2, v, by simpa using huv.2⟩

theorem subOcc_nil_left (s : List Char) : subOcc [] s = true := by
  cases s with
  | nil => rfl
  | cons c t => simp [subOcc, isPreOf]

/-- C5: the search filter — an empty query returns exactly the full sorted
word list; a query keeps exactly those stored words whose lowercased form
contains the lowercased query as a contiguous substring; the result is in
code-point lexicographic (case-sensitive) sorted order; and on the store
["apple", "Banana", "cherry"] the query "an" returns ["Banana"]. -/
theorem filter_words_spec :
    (∀ m : WordData, filter_words "" m = refresh_word_list m)
    ∧ (∀ (m : WordData) (q w : String),
        w ∈ filter_words q m
          ↔ w ∈ m.map Prod.fst
            ∧ ∃ u v, (pyLower w).data = u ++ (pyLower q).data ++ v)
    ∧ (∀ (m : WordData) (q : String), (filter_words q m).Sorted strLe)
    ∧ filter_words "an" [("apple", "a"), ("Banana", "b"), ("cherry", "c")]
        = ["Banana"] := by
  refine ⟨?_, ?_, ?_, ?_⟩
  · intro m
    unfold filter_words refresh_word_list
    apply List.filter_eq_self.mpr
    intro w hw
    exact subOcc_nil_left _
  · intro m q w
    unfold filter_words
    rw [List.mem_filter,
      (List.perm_insertionSort strLe (m.map Prod.fst)).mem_iff, subOcc_iff]
  · intro m q
    unfold filter_words
    exact List.Pairwise.filter _ (List.sorted_insertionSort strLe _)
  · decide

/-- JSON documents, as produced by Python's `json.load`. -/
inductive Json where
  | null
  | bool (b : Bool)
  | num (n : Int)
  | str (s : String)
  | arr (elems : List Json)
  | obj (entries : List (String × Json))

/-- The error `json.load` raises on unparsable text
(`json.JSONDecodeError`); the spec's name for it is `CorruptDataError`. -/
inductive LoadError where
  | jsonDecodeError
deriving DecidableEq

/-- `load_data` (lines 26-30) with the word-data file at parse level:
`none` = the file does not exist (`os.path.exists` is false), so `{}` is
returned; `some none` = the file exists but its text is not valid JSON, so
`json.load` raises; `some (some j)` = the file exists and parses to the
document `j`, which is returned with no further validation. -/
def load_data (file : Option (Option Json)) : Except LoadError Json :=
  match file with
  | none => .ok (.obj [])
  | some none => .error .jsonDecodeError
  | some (some j) => .ok j

/-- The expected shape of the word-data document per the spec: a JSON
object whose values are all strings. -/
def isWordMapping : Json → Bool
  | .obj entries => entries.all (fun p => match p.2 with | .str _ => true | _ => false)
  | _ => false

/-- C8 counterexample: the file content `[]` is valid JSON but an array,
not a mapping of strings to strings; `load_data` returns it unchanged with
no error, contradicting the claim that a file that exists but does not
match the expected shape fails with `CorruptDataError`. -/
theorem load_data_no_shape_validation :
    load_data (some (some (Json.arr []))) = Except.ok (Json.arr [])
    ∧ isWordMapping (Json.arr []) = false :=
  ⟨rfl, rfl⟩

/-- C8 amended: `load_data` returns the empty mapping (not an error) when
the word-data file does not exist, and fails with the JSON decode error
when the file exists but its text is not valid JSON; it performs no shape
validation, so any parsable JSON document — of the expected shape or not —
is returned as-is. -/
theorem load_data_spec :
    load_data none = Except.ok (Json.obj [])
    ∧ load_data (some none) = Except.error LoadError.jsonDecodeError
    ∧ (∀ j : Json, load_data (some (some j)) = Except.ok j) :=
  ⟨rfl, rfl, fun _ => rfl⟩

/-- Four-bit value as a lowercase hex digit, as Python's `\uXXXX` escapes
use. -/
def hexDig (n : Nat) : Char :=
  if n < 10 then Char.ofNat (48 + n) else Char.ofNat (87 + n)

/-- A `\uXXXX` escape for one UTF-16 code unit. -/
def uEsc (n : Nat) : String :=
  ⟨['\\', 'u', hexDig (n / 4096 % 16), hexDig (n / 256 % 16),
    hexDig (n / 16 % 16), hexDig (n % 16)]⟩

/-- How `json.dump` writes one character inside a string literal: two-char
escapes for quote, backslash and the common control characters, `\uXXXX`
for the other control characters and — when `ensure_ascii` is set, which is
Python's default — for every character above the ASCII range (as a
surrogate pair beyond the basic plane); all other characters verbatim. -/
def escapeChar (ensureAscii : Bool) (c : Char) : String :=
  if c = '"' then "\\\""
  else if c = '\\' then "\\\\"
  else if c = '\n' then "\\n"
  else if c = '\r' then "\\r"
  else if c = '\t' then "\\t"
  else if c.toNat = 8 then "\\b"
  else if c.toNat = 12 then "\\f"
  else if c.toNat < 32 then uEsc c.toNat
  else if ensureAscii = true ∧ 126 < c.toNat then
    if c.toNat < 65536 then uEsc c.toNat
    else uEsc (55296 + (c.toNat - 65536) / 1024)
      ++ uEsc (56320 + (c.toNat - 65536) % 1024)
  else ⟨[c]⟩

/-- Concatenation of a list of strings. -/
def strConcat : List String → String
  | [] => ""
  | s :: rest => s ++ strConcat rest

/-- Join strings with a separator. -/
def joinSep (sep : String) : List String → String
  | [] => ""
  | [s] => s
  | s :: rest => s ++ sep ++ joinSep sep rest

/-- A run of spaces, for `indent`. -/
def spaces (n : Nat) : String :=
  ⟨List.replicate n ' '⟩

/-- A JSON string literal for `s`. -/
def encodeString (ensureAscii : Bool) (s : String) : String :=
  "\"" ++ strConcat (s.data.map (escapeChar ensureAscii)) ++ "\""

/-- Decimal digits of `n` (fuel-based so it reduces in the kernel). -/
def natDigits : Nat → Nat → List Char
  | 0, _ => []
  | _ + 1, 0 => []
  | fuel + 1, n => natDigits fuel (n / 10) ++ [Char.ofNat (48 + n % 10)]

/-- Decimal text of a natural number, as `json.dump` writes counters. -/
def natText (n : Nat) : String :=
  if n = 0 then "0" else ⟨natDigits (n + 1) n⟩

/-- `save_data` (lines 32-34) at text level: the exact text
`json.dump(data, f, ensure_ascii=False, indent=4)` writes for a word
dict. -/
def save_data_text (data : WordData) : String :=
  if data.isEmpty then "\x7b\x7d"
  else
    "\x7b\n"
      ++ joinSep ",\n" (data.map (fun p =>
          spaces 4 ++ encodeString false p.1 ++ ": " ++ encodeString false p.2))
      ++ "\n\x7d"

/-- The progress-log write of `log_progress` (lines 47-48) at text level:
the exact text `json.dump(log, f, indent=2)` writes — `ensure_ascii` is
left at its default `True` here, unlike in `save_data`. -/
def log_progress_text (log : ProgressLog) : String :=
  if log.isEmpty then "\x7b\x7d"
  else
    "\x7b\n"
      ++ joinSep ",\n" (log.map (fun p =>
          spaces 2 ++ encodeString true p.1 ++ ": \x7b\n"
            ++ spaces 4 ++ "\"added\": " ++ natText p.2.added ++ ",\n"
            ++ spaces 4 ++ "\"viewed\": " ++ natText p.2.viewed ++ "\n"
            ++ spaces 2 ++ "\x7d"))
      ++ "\n\x7d"

/-- C9 counterexample: the progress-log writer does not preserve non-ASCII
text — a log entry whose key contains the character é is written with the
escape `\u00e9` and the character itself never appears in the output,
while the word-data writer keeps the same character verbatim. -/
theorem log_progress_text_escapes_nonascii :
    'é' ∈ "é".data
    ∧ ¬('é' ∈ (log_progress_text [("é", ⟨0, 0⟩)]).data)
    ∧ log_progress_text [("é", ⟨0, 0⟩)]
        = "\x7b\n  \"\\u00e9\": \x7b\n    \"added\": 0,\n    \"viewed\": 0\n  \x7d\n\x7d"
    ∧ save_data_text [("é", "x")] = "\x7b\n    \"é\": \"x\"\n\x7d" :=
  ⟨by decide, by decide, by decide, by decide⟩

theorem str_data_append (a b : String) : (a ++ b).data = a.data ++ b.data := rfl

theorem mem_strConcat {c : Char} {s : String} :
    ∀ {l : List String}, s ∈ l → c ∈ s.data → c ∈ (strConcat l).data := by
  intro l
  induction l with
  | nil => intro hs _; exact absurd hs (List.not_mem_nil s)
  | cons a rest ih =>
    intro hs hc
    rw [show strConcat (a :: rest) = a ++ strConcat rest from rfl, str_data_append]
    rcases List.mem_cons.mp hs with h | h
    · exact List.mem_append_left _ (h ▸ hc)
    · exact List.mem_append_right _ (ih h hc)

theorem mem_joinSep {c : Char} {sep s : String} :
    ∀ {l : List String}, s ∈ l → c ∈ s.data → c ∈ (joinSep sep l).data := by
  intro l
  induction l with
  | nil => intro hs _; exact absurd hs (List.not_mem_nil s)
  | cons a rest ih =>
    intro hs hc
    cases rest with
    | nil =>
      rcases List.mem_cons.mp hs with h | h
      · exact (h ▸ hc : c ∈ a.data)
      · exact absurd h (List.not_mem_nil s)
    | cons b rest2 =>
      rw [show joinSep sep (a :: b :: rest2) = a ++ sep ++ joinSep sep (b :: rest2) from rfl,
        str_data_append, str_data_append]
      rcases List.mem_cons.mp hs with h | h
      · exact List.mem_append_left _ (List.mem_append_left _ (h ▸ hc))
      · exact List.mem_append_right _ (ih h hc)

theorem escapeChar_false_preserves (c : Char) (h32 : 32 ≤ c.toNat)
    (hq : c ≠ '"') (hb : c ≠ '\\') : escapeChar false c = ⟨[c]⟩ := by
  unfold escapeChar
  rw [if_neg hq, if_neg hb,
    if_neg (show ¬c = '\n' from fun h => by rw [h] at h32; exact absurd h32 (by decide)),
    if_neg (show ¬c = '\r' from fun h => by rw [h] at h32; exact absurd h32 (by decide)),
    if_neg (show ¬c = '\t' from fun h => by rw [h] at h32; exact absurd h32 (by decide)),
    if_neg (show ¬c.toNat = 8 by omega),
    if_neg (show ¬c.toNat = 12 by omega),
    if_neg (show ¬c.toNat < 32 by omega),
    if_neg (show ¬(false = true ∧ 126 < c.toNat) from fun h => Bool.false_ne_true h.1)]

theorem escapeChar_true_escapes (c : Char) (h126 : 126 < c.toNat)
    (h64k : c.toNat < 65536) : escapeChar true c = uEsc c.toNat := by
  unfold escapeChar
  rw [if_neg (show ¬c = '"' from fun h => by rw [h] at h126; exact absurd h126 (by decide)),
    if_neg (show ¬c = '\\' from fun h => by rw [h] at h126; exact absurd h126 (by decide)),
    if_neg (show ¬c = '\n' from fun h => by rw [h] at h126; exact absurd h126 (by decide)),
    if_neg (show ¬c = '\r' from fun h => by rw [h] at h126; exact absurd h126 (by decide)),
    if_neg (show ¬c = '\t' from fun h => by rw [h] at h126; exact absurd h126 (by decide)),
    if_neg (show ¬c.toNat = 8 by omega),
    if_neg (show ¬c.toNat = 12 by omega),
    if_neg (show ¬c.toNat < 32 by omega),
    if_pos (show true = true ∧ 126 < c.toNat from ⟨rfl, h126⟩),
    if_pos h64k]

/-- C9 amended: the word-data writer (4-space indent, `ensure_ascii=False`)
preserves every printable character — non-ASCII included — verbatim: such
characters pass through its escaper unchanged and every such character of a
stored explanation appears literally in the written document. The
progress-log writer (2-space indent) leaves `ensure_ascii` at Python's
default, so its escaper rewrites every character above the ASCII range to a
`\uXXXX` escape instead of preserving it; the two writers thus do not share
one formatting. -/
theorem save_formats_spec :
    (∀ c : Char, 32 ≤ c.toNat → c ≠ '"' → c ≠ '\\' → escapeChar false c = ⟨[c]⟩)
    ∧ (∀ c : Char, 126 < c.toNat → c.toNat < 65536 → escapeChar true c = uEsc c.toNat)
    ∧ (∀ (data : WordData) (k v : String) (c : Char),
        (k, v) ∈ data → c ∈ v.data → 32 ≤ c.toNat → c ≠ '"' → c ≠ '\\' →
          c ∈ (save_data_text data).data) := by
  refine ⟨escapeChar_false_preserves, escapeChar_true_escapes, ?_⟩
  intro data k v c hkv hc h32 hq hb
  have hne : data.isEmpty = false := by
    cases data with
    | nil => exact absurd hkv (List.not_mem_nil _)
    | cons p rest => rfl
  unfold save_data_text
  rw [if_neg (show ¬(data.isEmpty = true) by rw [hne]; exact Bool.false_ne_true)]
  rw [str_data_append, str_data_append]
  have hesc : escapeChar false c ∈ v.data.map (escapeChar false) :=
    List.mem_map.mpr ⟨c, hc, rfl⟩
  have hcinesc : c ∈ (escapeChar false c).data := by
    rw [escapeChar_false_preserves c h32 hq hb]
    exact List.mem_singleton.mpr rfl
  have hcenc : c ∈ (encodeString false v).data := by
    unfold encodeString
    rw [str_data_append, str_data_append]
    exact List.mem_append_left _
      (List.mem_append_right _ (mem_strConcat hesc hcinesc))
  have hcentry :
      c ∈ (spaces 4 ++ encodeString false k ++ ": " ++ encodeString false v).data := by
    rw [str_data_append]
    exact List.mem_append_right _ hcenc
  exact List.mem_append_left _ (List.mem_append_right _
    (mem_joinSep (List.mem_map.mpr ⟨(k, v), hkv, rfl⟩) hcentry))

/-- Witness for the amended C9 at the concrete character é. -/
theorem save_formats_spec_witness :
    escapeChar false 'é' = ⟨['é']⟩
    ∧ escapeChar true 'é' = uEsc 'é'.toNat
    ∧ 'é' ∈ (save_data_text [("w", "é")]).data :=
  ⟨save_formats_spec.1 'é' (by decide) (by decide) (by decide),
    save_formats_spec.2.1 'é' (by decide) (by decide),
    save_formats_spec.2.2 [("w", "é")] "w" "é" 'é' (by decide) (by decide)
      (by decide) (by decide) (by decide)⟩
